import Mathlib

/-!
Verification of protoc-gen-seaorm against its specification.

This file shallowly embeds the relevant parts of the generator:

* `src/codegen/relation.rs` — relation resolution, self-referential pair
  detection (`find_self_ref_reverse`, `generate_relation_fields`,
  `generate_relation_attribute`).
* `src/codegen/oneof.rs` — oneof extraction and the flatten / tagged
  strategies (`extract_oneofs`, `is_oneof_field`, `generate_flatten_fields`,
  `generate_tagged_fields`, `OneofStrategy.from_str`).
* `src/options.rs` — the uninterpreted-option text-format fallback
  (`split_aggregate_parts`, `split_aggregate_parts_simple`,
  `parse_aggregate_into_field_options`, `parse_quoted_string`).
* `src/main.rs` — the process entry point (`run`, exit-code behaviour).
* the snake-case / upper-camel-case conversions of the `heck` crate
  (an external dependency whose `ToSnakeCase` / `ToUpperCamelCase`
  implementations the generator calls throughout); these are embedded from
  heck's word-splitting `transform` algorithm, restricted to ASCII character
  classification (protobuf identifiers are ASCII).

Representation conventions:

* Rust `String` / `&str` values are Lean `String`s; the heck word machinery
  works on `List Char` and is wrapped at the `String` level.
* machine integers that never overflow on realistic inputs (`i32` depth
  counters bounded by the input length, descriptor field numbers) are `Int`.
* `proc_macro2::TokenStream` fields produced by `quote!` are represented
  structurally: an emitted struct member is a record of its `#[sea_orm(...)]`
  attribute items (one string per comma-separated item, interpolated string
  values rendered without surrounding quotes), its field identifier, and its
  type.  Fallible `syn` parses that cannot fail on the inputs the generator
  builds (identifier/path parsing of snake-cased names) are embedded as the
  successful parse.
* fallible operations are `Option`/`Except`; the process world (stdin,
  stdout, encode outcomes) is explicit state.

Components of the repository that exist only as declarations or callers in
`src/` (the orchestrator `generator.rs`, the type mapper `types.rs`, the
entity renderer `entity.rs`) are modelled from the specification; every such
definition carries a doc comment starting with `Modelled from the spec:`.
-/

/-! ## ASCII character classification and case conversion

Rust's `char::is_uppercase`, `char::is_lowercase`, `char::is_alphanumeric`
and `to_lowercase`/`to_uppercase` are Unicode-aware; descriptor identifiers
are ASCII (protobuf grammar: `[A-Za-z_][A-Za-z0-9_]*`), so the embedding
fixes the ASCII fragment. -/

def isUpperA (c : Char) : Bool := 65 ≤ c.toNat && c.toNat ≤ 90

def isLowerA (c : Char) : Bool := 97 ≤ c.toNat && c.toNat ≤ 122

def isDigitA (c : Char) : Bool := 48 ≤ c.toNat && c.toNat ≤ 57

def isAlnumA (c : Char) : Bool := isUpperA c || isLowerA c || isDigitA c

def toLowerA (c : Char) : Char :=
  if isUpperA c then Char.ofNat (c.toNat + 32) else c

def toUpperA (c : Char) : Char :=
  if isLowerA c then Char.ofNat (c.toNat - 32) else c

/-! ## heck's word-splitting transform

Embedding of the `transform` function of the `heck` crate (the dependency
providing `ToSnakeCase` / `ToUpperCamelCase` used by `relation.rs` and
`oneof.rs`).  heck splits the input at non-alphanumeric characters, then
splits each fragment at camel boundaries: a boundary falls after a character
whose running mode is lowercase when the next character is uppercase, and
before an uppercase character that continues an uppercase run and is followed
by a lowercase character.  Snake case lower-cases the words and joins them
with underscores; upper camel case capitalizes each word and concatenates. -/

inductive WordMode
  | boundary
  | lower
  | upper
deriving DecidableEq

/-- The mode after consuming `c` when the mode so far is `mode`
(heck: `next_mode` in `transform`). -/
def nextModeOf (c : Char) (mode : WordMode) : WordMode :=
  if isLowerA c then WordMode.lower
  else if isUpperA c then WordMode.upper
  else mode

/-- The camel-boundary loop of heck's `transform`, specialised to returning
the list of words of one non-alphanumeric-free fragment.  `acc` is the
portion of the current word already scanned (`word[init..i]`). -/
def transformGo : Char → List Char → WordMode → List Char → List (List Char)
  | c, [], _, acc => [acc ++ [c]]
  | c, next :: rest, mode, acc =>
    if nextModeOf c mode = WordMode.lower ∧ isUpperA next = true then
      (acc ++ [c]) :: transformGo next rest WordMode.boundary []
    else if mode = WordMode.upper ∧ isUpperA c = true ∧ isLowerA next = true then
      acc :: transformGo next rest WordMode.boundary [c]
    else
      transformGo next rest (nextModeOf c mode) (acc ++ [c])

/-- Words of one fragment (empty fragments produce no words). -/
def wordParts : List Char → List (List Char)
  | [] => []
  | c :: rest => transformGo c rest WordMode.boundary []

/-- heck's outer split of the input at non-alphanumeric characters
(`s.split(|c| !c.is_alphanumeric())`). -/
def splitNonAlnum : List Char → List (List Char)
  | [] => [[]]
  | c :: rest =>
    match splitNonAlnum rest with
    | [] => [[]]
    | w :: ws => if isAlnumA c then (c :: w) :: ws else [] :: w :: ws

/-- Join words with the `'_'` boundary (heck writes the boundary before every
word except the first emitted one). -/
def joinWords : List (List Char) → List Char
  | [] => []
  | [w] => w
  | w :: ws => w ++ '_' :: joinWords ws

/-- All words of the input, in emission order. -/
def heckWords (s : List Char) : List (List Char) :=
  ((splitNonAlnum s).map wordParts).flatten

def heckSnakeList (s : List Char) : List Char :=
  joinWords ((heckWords s).map (List.map toLowerA))

/-- `heck::ToSnakeCase::to_snake_case`, as called by `relation.rs` and
`oneof.rs`. -/
def toSnakeCase (s : String) : String := String.mk (heckSnakeList s.data)

/-- heck's `capitalize`: first character upper-cased, remainder lower-cased. -/
def capitalizeWord : List Char → List Char
  | [] => []
  | c :: rest => toUpperA c :: rest.map toLowerA

/-- `heck::ToUpperCamelCase::to_upper_camel_case`. -/
def toUpperCamelCase (s : String) : String :=
  String.mk (((heckWords s.data).map capitalizeWord).flatten)

/-! ## The specification's snake-case rule

§6 of the spec: "Snake-case conversion is defined as: lower-case letters
pass through; upper-case letters become lower-case with a preceding
underscore unless at position zero or after another underscore; digits pass
through."  This is the spec-side definition used to compare against the
source-side `toSnakeCase`. -/

/-- The spec's per-character rule; `prev` is the preceding input character
(`none` at position zero). -/
def specSnakeAux : Option Char → List Char → List Char
  | _, [] => []
  | prev, c :: rest =>
    if isUpperA c then
      (if prev = none ∨ prev = some '_' then [toLowerA c] else ['_', toLowerA c])
        ++ specSnakeAux (some c) rest
    else
      c :: specSnakeAux (some c) rest

/-- Snake-case conversion exactly as §6 of the spec defines it. -/
def specSnakeCase (s : String) : String := String.mk (specSnakeAux none s.data)

/-- Adjacent-pair condition: every upper-case character not at position zero
immediately follows a lower-case letter. -/
def adjOk : List Char → Bool
  | [] => true
  | [_] => true
  | a :: b :: rest => (!(isUpperA b) || isLowerA a) && adjOk (b :: rest)

/-! ## `src/codegen/relation.rs` — data model -/

/-- `seaorm::RelationDef` (generated from `proto/seaorm/options.proto`):
a message-level relation record.  `type` holds the raw protobuf enum tag
(`r#type: i32` in the generated code). -/
structure RelationDef where
  name : String
  type : Int
  related : String
  foreign_key : String
  references : String
  through : String
deriving DecidableEq

/-- `seaorm::RelationType`, the relation-kind enum of the options schema. -/
inductive RelationType
  | unspecified
  | belongsTo
  | hasOne
  | hasMany
  | manyToMany
deriving DecidableEq

/-- Modelled from the spec: `proto/seaorm/options.proto` is not under `src/`.
`RelationType::try_from(i32).unwrap_or(RelationType::Unspecified)` with the
tag numbering implied by the declaration order visible in
`parse_relation_type` (`options.rs`): `UNSPECIFIED = 0`, `BELONGS_TO = 1`,
`HAS_ONE = 2`, `HAS_MANY = 3`, `MANY_TO_MANY = 4`; any other tag falls back
to `Unspecified`. -/
def relationTypeOfInt (n : Int) : RelationType :=
  if n = 1 then RelationType.belongsTo
  else if n = 2 then RelationType.hasOne
  else if n = 3 then RelationType.hasMany
  else if n = 4 then RelationType.manyToMany
  else RelationType.unspecified

/-- `SeaOrmRelationType` from `relation.rs`. -/
inductive SeaOrmRelationType
  | hasOne
  | hasMany
  | belongsTo
  | manyToMany
deriving DecidableEq

/-- `SeaOrmRelationType::attribute_name`. -/
def SeaOrmRelationType.attribute_name : SeaOrmRelationType → String
  | SeaOrmRelationType.hasOne => "has_one"
  | SeaOrmRelationType.hasMany => "has_many"
  | SeaOrmRelationType.belongsTo => "belongs_to"
  | SeaOrmRelationType.manyToMany => "many_to_many"

/-- `GeneratedRelation` from `relation.rs`. -/
structure GeneratedRelation where
  variant_name : String
  relation_type : SeaOrmRelationType
  target_entity : String
  from_column : Option String
  to_column : Option String
  via_table : Option String
deriving DecidableEq

/-- `generate_relation_from_def` (`relation.rs`). -/
def generate_relation_from_def (rel_def : RelationDef) : Option GeneratedRelation :=
  if rel_def.name = "" ∨ rel_def.related = "" then none
  else
    let target_entity := "super::" ++ toSnakeCase rel_def.related ++ "::Entity"
    let via_table := if rel_def.through ≠ "" then some rel_def.through else none
    match relationTypeOfInt rel_def.type with
    | RelationType.unspecified => none
    | RelationType.belongsTo =>
      let from_col := if rel_def.foreign_key = "" then toSnakeCase rel_def.related ++ "_id"
                      else rel_def.foreign_key
      let to_col := if rel_def.references = "" then "id" else rel_def.references
      some { variant_name := toUpperCamelCase rel_def.name,
             relation_type := SeaOrmRelationType.belongsTo,
             target_entity := target_entity,
             from_column := some from_col, to_column := some to_col,
             via_table := via_table }
    | RelationType.hasOne =>
      some { variant_name := toUpperCamelCase rel_def.name,
             relation_type := SeaOrmRelationType.hasOne,
             target_entity := target_entity,
             from_column := if rel_def.foreign_key ≠ "" then some rel_def.foreign_key else none,
             to_column := if rel_def.references ≠ "" then some rel_def.references else none,
             via_table := via_table }
    | RelationType.hasMany =>
      some { variant_name := toUpperCamelCase rel_def.name,
             relation_type := SeaOrmRelationType.hasMany,
             target_entity := target_entity,
             from_column := if rel_def.foreign_key ≠ "" then some rel_def.foreign_key else none,
             to_column := if rel_def.references ≠ "" then some rel_def.references else none,
             via_table := via_table }
    | RelationType.manyToMany =>
      some { variant_name := toUpperCamelCase rel_def.name,
             relation_type := SeaOrmRelationType.manyToMany,
             target_entity := target_entity,
             from_column := if rel_def.foreign_key ≠ "" then some rel_def.foreign_key else none,
             to_column := if rel_def.references ≠ "" then some rel_def.references else none,
             via_table := via_table }

/-- `generate_relation_attribute` (`relation.rs`): render the
`#[sea_orm(...)]` attribute text for a `GeneratedRelation`. -/
def generate_relation_attribute (relation : GeneratedRelation) : String :=
  match relation.relation_type with
  | SeaOrmRelationType.hasOne =>
    "has_one = \"" ++ relation.target_entity ++ "\""
  | SeaOrmRelationType.hasMany =>
    match relation.via_table with
    | some via => "has_many = \"" ++ relation.target_entity ++ "\", via = \"" ++ via ++ "\""
    | none => "has_many = \"" ++ relation.target_entity ++ "\""
  | SeaOrmRelationType.belongsTo =>
    let fromCol := (relation.from_column).getD "id"
    let toCol := (relation.to_column).getD "id"
    "belongs_to = \"" ++ relation.target_entity ++ "\", from = \"Column::"
      ++ toUpperCamelCase fromCol ++ "\", to = \"super::"
      ++ ((relation.target_entity.replace "super::" "").replace "::Entity" "")
      ++ "::Column::" ++ toUpperCamelCase toCol ++ "\""
  | SeaOrmRelationType.manyToMany =>
    match relation.via_table with
    | some via =>
      "many_to_many = \"" ++ relation.target_entity ++ "\", via = \"super::"
        ++ toSnakeCase via ++ "::Entity\""
    | none => "has_many = \"" ++ relation.target_entity ++ "\""

/-- Complementary-kind test inlined in `find_self_ref_reverse`
(`is_complementary`): belongs-to pairs with has-one or has-many, in either
order. -/
def isComplementary : RelationType → RelationType → Bool
  | RelationType.belongsTo, RelationType.hasMany => true
  | RelationType.belongsTo, RelationType.hasOne => true
  | RelationType.hasMany, RelationType.belongsTo => true
  | RelationType.hasOne, RelationType.belongsTo => true
  | _, _ => false

/-- Foreign-key agreement test inlined in `find_self_ref_reverse`
(`same_fk`): when both records specify a foreign key they must be equal;
otherwise they are assumed to match. -/
def sameFk (current_rel rel : RelationDef) : Bool :=
  if current_rel.foreign_key ≠ "" ∧ rel.foreign_key ≠ "" then
    current_rel.foreign_key == rel.foreign_key
  else true

/-- The search loop of `find_self_ref_reverse` over the relation list. -/
def findLoop : List RelationDef → RelationDef → String → Option String
  | [], _, _ => none
  | rel :: rest, current_rel, current_entity =>
    if rel.name = current_rel.name then findLoop rest current_rel current_entity
    else if toSnakeCase rel.related = toSnakeCase current_entity then
      if isComplementary (relationTypeOfInt current_rel.type) (relationTypeOfInt rel.type) = true then
        if sameFk current_rel rel = true then some (toUpperCamelCase rel.name)
        else findLoop rest current_rel current_entity
      else findLoop rest current_rel current_entity
    else findLoop rest current_rel current_entity

/-- `find_self_ref_reverse` (`relation.rs`): for a self-referential relation,
find the upper-camel-cased name of its complementary partner. -/
def find_self_ref_reverse (relations : List RelationDef) (current_rel : RelationDef)
    (current_entity : String) : Option String :=
  if toSnakeCase current_rel.related = toSnakeCase current_entity then
    findLoop relations current_rel current_entity
  else none

/-- Structural rendering of one relation field emitted by `quote!` in
`relation.rs`: the `#[sea_orm(...)]` attribute items, the field identifier,
the wrapper type (`HasOne`/`HasMany`) and the target entity path. -/
structure RelField where
  attrs : List String
  field_name : String
  wrapper : String
  target : String
deriving DecidableEq

/-- `generate_relation_field_with_reverse` (`relation.rs`). -/
def generate_relation_field_with_reverse (rel_def : RelationDef) (current_entity : String)
    (relation_reverse : Option String) : Option RelField :=
  if rel_def.name = "" ∨ rel_def.related = "" then none
  else
    let field_name := toSnakeCase rel_def.name
    let relation_enum_name := toUpperCamelCase rel_def.name
    let is_self_ref := toSnakeCase rel_def.related = toSnakeCase current_entity
    let target_entity := if is_self_ref then "Entity"
                         else "super::" ++ toSnakeCase rel_def.related ++ "::Entity"
    match relationTypeOfInt rel_def.type with
    | RelationType.hasOne =>
      if is_self_ref then
        match relation_reverse with
        | some reverse =>
          some ⟨["has_one", "self_ref", "relation_enum = " ++ relation_enum_name,
                 "relation_reverse = " ++ reverse], field_name, "HasOne", target_entity⟩
        | none =>
          some ⟨["has_one", "self_ref", "relation_enum = " ++ relation_enum_name],
                field_name, "HasOne", target_entity⟩
      else some ⟨["has_one"], field_name, "HasOne", target_entity⟩
    | RelationType.hasMany =>
      if rel_def.through ≠ "" then
        let via_module := toSnakeCase rel_def.through
        if is_self_ref then
          match relation_reverse with
          | some reverse =>
            some ⟨["has_many", "self_ref", "relation_enum = " ++ relation_enum_name,
                   "relation_reverse = " ++ reverse, "via = " ++ via_module],
                  field_name, "HasMany", target_entity⟩
          | none =>
            some ⟨["has_many", "self_ref", "relation_enum = " ++ relation_enum_name,
                   "via = " ++ via_module], field_name, "HasMany", target_entity⟩
        else some ⟨["has_many", "via = " ++ via_module], field_name, "HasMany", target_entity⟩
      else if is_self_ref then
        match relation_reverse with
        | some reverse =>
          some ⟨["has_many", "self_ref", "relation_enum = " ++ relation_enum_name,
                 "relation_reverse = " ++ reverse], field_name, "HasMany", target_entity⟩
        | none =>
          some ⟨["has_many", "self_ref", "relation_enum = " ++ relation_enum_name],
                field_name, "HasMany", target_entity⟩
      else some ⟨["has_many"], field_name, "HasMany", target_entity⟩
    | RelationType.belongsTo =>
      let from_col := if rel_def.foreign_key = "" then toSnakeCase rel_def.related ++ "_id"
                      else rel_def.foreign_key
      let to_col := if rel_def.references = "" then "id" else rel_def.references
      if is_self_ref then
        match relation_reverse with
        | some reverse =>
          some ⟨["self_ref", "relation_enum = " ++ relation_enum_name,
                 "relation_reverse = " ++ reverse, "from = " ++ from_col, "to = " ++ to_col],
                field_name, "HasOne", target_entity⟩
        | none =>
          some ⟨["belongs_to", "self_ref", "relation_enum = " ++ relation_enum_name,
                 "from = " ++ from_col, "to = " ++ to_col],
                field_name, "HasOne", target_entity⟩
      else
        some ⟨["belongs_to", "from = " ++ from_col, "to = " ++ to_col],
              field_name, "HasOne", target_entity⟩
    | RelationType.manyToMany =>
      if rel_def.through ≠ "" then
        let via_module := toSnakeCase rel_def.through
        if is_self_ref then
          some ⟨["has_many", "self_ref", "relation_enum = " ++ relation_enum_name,
                 "via = " ++ via_module], field_name, "HasMany", target_entity⟩
        else some ⟨["has_many", "via = " ++ via_module], field_name, "HasMany", target_entity⟩
      else if is_self_ref then
        some ⟨["has_many", "self_ref", "relation_enum = " ++ relation_enum_name],
              field_name, "HasMany", target_entity⟩
      else some ⟨["has_many"], field_name, "HasMany", target_entity⟩
    | RelationType.unspecified => none

/-- `generate_relation_fields` (`relation.rs`): emit every relation of a
message, wiring self-referential reverse partners. -/
def generate_relation_fields (relations : List RelationDef) (current_entity : String) :
    List RelField :=
  relations.filterMap (fun rel =>
    generate_relation_field_with_reverse rel current_entity
      (find_self_ref_reverse relations rel current_entity))

/-! ## `src/codegen/oneof.rs` — descriptors, strategies and field emission -/

/-- `seaorm::OneofOptions` (options schema): storage strategy, column prefix
(source field `column_prefix`, shortened here to `column_pfx`), and
discriminator column override. -/
structure OneofOptions where
  strategy : String
  column_pfx : String
  discriminator_column : String
deriving DecidableEq

/-- `prost_types::OneofDescriptorProto`, restricted to the fields the
generator reads.  The typed `seaorm.oneof` extension carried by `options` is
embedded directly as the already-decoded option record
(`parse_oneof_options` in `options.rs` recovers it from extension bytes or
the uninterpreted fallback; the transport is bypassed here). -/
structure OneofDescriptorProto where
  name : Option String
  options : Option OneofOptions
deriving DecidableEq

/-- `prost_types::FieldDescriptorProto`, restricted to the fields
`oneof.rs` reads: name, proto type tag (`r#type`), type name and oneof
index. -/
structure FieldDescriptorProto where
  name : Option String
  number : Int
  protoType : Int
  type_name : Option String
  oneof_index : Option Int
deriving DecidableEq

/-- `prost_types::DescriptorProto`, restricted to the fields `oneof.rs`
reads. -/
structure DescriptorProto where
  name : Option String
  field : List FieldDescriptorProto
  oneof_decl : List OneofDescriptorProto
deriving DecidableEq

/-- `OneofStrategy` (`oneof.rs`). -/
inductive OneofStrategy
  | flatten
  | json
  | tagged
deriving DecidableEq

/-- Rust `str::to_lowercase`, ASCII fragment. -/
def asciiLower (s : String) : String := String.mk (s.data.map toLowerA)

/-- `OneofStrategy::from_str` (`oneof.rs`): case-insensitive match on the
lower-cased option string, any unrecognised value defaulting to `Flatten`. -/
def OneofStrategy.from_str (s : String) : OneofStrategy :=
  if asciiLower s = "json" then OneofStrategy.json
  else if asciiLower s = "tagged" then OneofStrategy.tagged
  else OneofStrategy.flatten

/-- `OneofField` (`oneof.rs`). -/
structure OneofField where
  name : String
  proto_type : Int
  type_name : Option String
deriving DecidableEq

/-- `OneofInfo` (`oneof.rs`). -/
structure OneofInfo where
  name : String
  strategy : OneofStrategy
  column_pfx : String
  discriminator_column : String
  fields : List OneofField
deriving DecidableEq

/-- `parse_oneof_options` (`options.rs`): the typed option record attached
to the oneof descriptor (see `OneofDescriptorProto.options`). -/
def parse_oneof_options (oneof : OneofDescriptorProto) : Option OneofOptions :=
  oneof.options

/-- `extract_oneof_settings` (`oneof.rs`). -/
def extract_oneof_settings (options : Option OneofOptions) :
    OneofStrategy × String × String :=
  match options with
  | some opts =>
    (OneofStrategy.from_str opts.strategy, opts.column_pfx, opts.discriminator_column)
  | none => (OneofStrategy.flatten, "", "")

/-- `oneof_desc.name.as_ref().map(|s| s.as_str()).unwrap_or("unknown")`. -/
def oneofDeclName (d : OneofDescriptorProto) : String := d.name.getD "unknown"

/-- `name.starts_with('_')`. -/
def startsWithUnderscore (s : String) : Bool :=
  match s.data with
  | [] => false
  | c :: _ => c = '_'

/-- Loop body of `extract_oneofs`: the `OneofInfo` built for the oneof at
index `idx`. -/
def mkOneofInfo (message : DescriptorProto) (idx : Nat) (d : OneofDescriptorProto) :
    OneofInfo :=
  let s := extract_oneof_settings (parse_oneof_options d)
  { name := oneofDeclName d,
    strategy := s.1,
    column_pfx := s.2.1,
    discriminator_column := s.2.2,
    fields := (message.field.filter (fun f => f.oneof_index == some (Int.ofNat idx))).map
      (fun f => { name := f.name.getD "", proto_type := f.protoType,
                  type_name := f.type_name }) }

/-- `extract_oneofs` (`oneof.rs`): every declared oneof, skipping synthetic
ones (names starting with an underscore). -/
def extract_oneofs (message : DescriptorProto) : List OneofInfo :=
  message.oneof_decl.enum.filterMap (fun p =>
    if startsWithUnderscore (oneofDeclName p.2) then none
    else some (mkOneofInfo message p.1 p.2))

/-- `is_oneof_field` (`oneof.rs`): a field belongs to a *real* oneof.
A negative `oneof_index` cast `as usize` in the source exceeds every list
length, so it fails the bounds check. -/
def is_oneof_field (field : FieldDescriptorProto) (message : DescriptorProto) : Bool :=
  match field.oneof_index with
  | some idx =>
    if 0 ≤ idx then
      match message.oneof_decl.get? idx.toNat with
      | some oneof =>
        match oneof.name with
        | some n => !(startsWithUnderscore n)
        | none => false
      | none => false
    else false
  | none => false

/-- Modelled from the spec: `types.rs` (the type mapper) is not under
`src/`.  §4.2's fixed table keyed by the protobuf type tag: double→`f64`,
float→`f32`, int64/sint64/sfixed64→`i64`, uint64/fixed64→`u64`,
int32/sint32/sfixed32→`i32`, uint32/fixed32→`u32`, bool→`bool`,
string→`String`, bytes→`Vec<u8>`; message and enum fields map to their
(qualified) type name. -/
def map_proto_type (tag : Int) (type_name : Option String) : String :=
  if tag = 1 then "f64"
  else if tag = 2 then "f32"
  else if tag = 3 then "i64"
  else if tag = 4 then "u64"
  else if tag = 5 then "i32"
  else if tag = 6 then "u64"
  else if tag = 7 then "u32"
  else if tag = 8 then "bool"
  else if tag = 9 then "String"
  else if tag = 12 then "Vec<u8>"
  else if tag = 13 then "u32"
  else if tag = 15 then "i32"
  else if tag = 16 then "i64"
  else if tag = 17 then "i32"
  else if tag = 18 then "i64"
  else if tag = 11 ∨ tag = 14 then (type_name.getD "Unknown")
  else "String"

/-- The Rust type of an emitted row-struct member: either a bare type or an
`Option<...>`-wrapped one. -/
inductive RustTy
  | plain (base : String)
  | option (base : String)
deriving DecidableEq

/-- Structural rendering of one emitted row-struct member (`quote!` output):
`#[sea_orm(...)]` attribute items, field identifier, member type. -/
structure EmittedField where
  attrs : List String
  field_ident : String
  ty : RustTy
deriving DecidableEq

/-- `generate_flatten_fields` (`oneof.rs`): each variant of a
flatten-strategy oneof becomes its own column; the member type is always
`Option<...>` and the column attribute always carries `nullable`. -/
def generate_flatten_fields (oneof : OneofInfo) (message : DescriptorProto) :
    List EmittedField :=
  oneof.fields.filterMap (fun oneof_field =>
    match message.field.find? (fun f => f.name == some oneof_field.name) with
    | some field =>
      let column_name := if oneof.column_pfx = "" then toSnakeCase oneof_field.name
                         else oneof.column_pfx ++ "_" ++ toSnakeCase oneof_field.name
      some { attrs := ["column_name = " ++ column_name, "nullable"],
             field_ident := toSnakeCase oneof_field.name,
             ty := RustTy.option (map_proto_type field.protoType field.type_name) }
    | none => none)

/-- `generate_json_fields` (`oneof.rs`). -/
def generate_json_fields (oneof : OneofInfo) : List EmittedField :=
  [ { attrs := ["column_name = " ++ toSnakeCase oneof.name, "column_type = Json"],
      field_ident := toSnakeCase oneof.name,
      ty := RustTy.option "sea_orm::prelude::Json" } ]

/-- `generate_tagged_fields` (`oneof.rs`): a discriminator column (override
or `<oneof>_type`) and a value column `<oneof>_value`, both `Option<String>`. -/
def generate_tagged_fields (oneof : OneofInfo) : List EmittedField :=
  let base_name := toSnakeCase oneof.name
  let disc_col := if oneof.discriminator_column = "" then base_name ++ "_type"
                  else oneof.discriminator_column
  let value_col := base_name ++ "_value"
  [ { attrs := ["column_name = " ++ disc_col],
      field_ident := toSnakeCase disc_col,
      ty := RustTy.option "String" },
    { attrs := ["column_name = " ++ value_col, "column_type = Text"],
      field_ident := value_col,
      ty := RustTy.option "String" } ]

/-- Modelled from the spec: the entity renderer (`entity.rs`) is not under
`src/`.  Rendering of a field that is *not* handled by a real oneof: it
becomes a plain scalar column with no oneof strategy attribute, nullable
exactly when the field sits in a synthetic (underscore-named) presence
oneof (§4.2 rule 7, §4.4).  Fields of real oneofs return `none` here (the
oneof compiler emits them). -/
def isSyntheticOneofMember (field : FieldDescriptorProto) (message : DescriptorProto) :
    Bool :=
  match field.oneof_index with
  | some idx =>
    if 0 ≤ idx then
      match message.oneof_decl.get? idx.toNat with
      | some oneof => startsWithUnderscore (oneofDeclName oneof)
      | none => false
    else false
  | none => false

/-- Modelled from the spec: plain-scalar rendering of a non-oneof-compiled
field (see `isSyntheticOneofMember`). -/
def renderPlainScalar (message : DescriptorProto) (field : FieldDescriptorProto) :
    Option EmittedField :=
  if is_oneof_field field message then none
  else
    some { attrs := [],
           field_ident := toSnakeCase (field.name.getD ""),
           ty := if isSyntheticOneofMember field message then
                   RustTy.option (map_proto_type field.protoType field.type_name)
                 else RustTy.plain (map_proto_type field.protoType field.type_name) }

/-! ## `src/options.rs` — the uninterpreted-option text-format fallback -/

/-- `seaorm::FieldOptions` (options schema): per-field column options. -/
structure FieldOptions where
  primary_key : Bool
  auto_increment : Bool
  unique : Bool
  nullable : Bool
  column_name : String
  column_type : String
  default_value : String
  embed : Bool
  has_one : String
  has_many : String
  belongs_to : String
  belongs_to_from : String
  belongs_to_to : String
  has_many_via : String
deriving DecidableEq

/-- `seaorm::FieldOptions::default()`. -/
def defaultFieldOptions : FieldOptions :=
  ⟨false, false, false, false, "", "", "", false, "", "", "", "", "", ""⟩

def lbraceC : Char := Char.ofNat 123

def rbraceC : Char := Char.ofNat 125

def lbrackC : Char := Char.ofNat 91

def rbrackC : Char := Char.ofNat 93

/-- Rust `str::split(',')`: always at least one part; separators at the ends
produce empty parts. -/
def splitCommaList : List Char → List (List Char)
  | [] => [[]]
  | c :: rest =>
    match splitCommaList rest with
    | [] => [[]]
    | w :: ws => if c = ',' then [] :: w :: ws else (c :: w) :: ws

/-- `split_aggregate_parts` (`options.rs`): despite its doc comment
("respecting nested braces"), the body is `aggregate.split(',').collect()` —
a plain comma split. -/
def split_aggregate_parts (aggregate : String) : List String :=
  (splitCommaList aggregate.data).map String.mk

/-- Character loop of `split_aggregate_parts_simple`, carrying the brace and
bracket depths (`i32` counters in the source; `saturating_sub` only saturates
at `i32::MIN`, unreachable below 2^31 characters, so plain `Int` arithmetic
is faithful) and the current segment.  The trailing segment is pushed only
when nonempty (`if start < aggregate.len()`). -/
def splitSimpleGo : List Char → Int → Int → List Char → List (List Char)
  | [], _, _, acc => if acc.isEmpty then [] else [acc]
  | c :: rest, brace_depth, bracket_depth, acc =>
    if c = lbraceC then splitSimpleGo rest (brace_depth + 1) bracket_depth (acc ++ [c])
    else if c = rbraceC then splitSimpleGo rest (brace_depth - 1) bracket_depth (acc ++ [c])
    else if c = lbrackC then splitSimpleGo rest brace_depth (bracket_depth + 1) (acc ++ [c])
    else if c = rbrackC then splitSimpleGo rest brace_depth (bracket_depth - 1) (acc ++ [c])
    else if c = ',' ∧ brace_depth = 0 ∧ bracket_depth = 0 then
      acc :: splitSimpleGo rest brace_depth bracket_depth []
    else splitSimpleGo rest brace_depth bracket_depth (acc ++ [c])

/-- `split_aggregate_parts_simple` (`options.rs`): split only at top-level
commas, commas nested in braces or brackets preserved. -/
def split_aggregate_parts_simple (aggregate : String) : List String :=
  (splitSimpleGo aggregate.data 0 0 []).map String.mk

/-- ASCII whitespace test (`char::is_whitespace`, ASCII fragment). -/
def isWsA (c : Char) : Bool := c = ' ' ∨ c = '\t' ∨ c = '\n' ∨ c = '\r'

/-- Rust `str::trim` (ASCII fragment). -/
def trimAscii (s : String) : String :=
  String.mk (((s.data.dropWhile isWsA).reverse.dropWhile isWsA).reverse)

/-- Rust `str::split_once(':')`. -/
def splitOnceGo : List Char → List Char → Option (List Char × List Char)
  | [], _ => none
  | c :: rest, acc => if c = ':' then some (acc, rest) else splitOnceGo rest (acc ++ [c])

def split_once_colon (s : String) : Option (String × String) :=
  (splitOnceGo s.data []).map (fun p => (String.mk p.1, String.mk p.2))

def headIs (s : String) (c : Char) : Bool :=
  match s.data with
  | [] => false
  | a :: _ => a = c

def lastIs (s : String) (c : Char) : Bool :=
  match s.data.getLast? with
  | some a => a = c
  | none => false

/-- `parse_quoted_string` (`options.rs`): trim, then strip one pair of
matching single or double quotes.  (The source indexes `s[1..len-1]`, which
would panic on the one-character string consisting of a single quote; the
embedding returns the empty string there.) -/
def parse_quoted_string (s : String) : String :=
  let t := trimAscii s
  if (headIs t '"' ∧ lastIs t '"') ∨ (headIs t '\x27' ∧ lastIs t '\x27') then
    String.mk ((t.data.drop 1).dropLast)
  else t

/-- One `key: value` assignment of `parse_aggregate_into_field_options`
(`options.rs`). -/
def applyFieldKV (result : FieldOptions) (part : String) : FieldOptions :=
  match split_once_colon part with
  | none => result
  | some kv =>
    let key := trimAscii kv.1
    let value := trimAscii kv.2
    if key = "primary_key" then { result with primary_key := value == "true" }
    else if key = "auto_increment" then { result with auto_increment := value == "true" }
    else if key = "unique" then { result with unique := value == "true" }
    else if key = "nullable" then { result with nullable := value == "true" }
    else if key = "column_name" then { result with column_name := parse_quoted_string value }
    else if key = "column_type" then { result with column_type := parse_quoted_string value }
    else if key = "default_value" then { result with default_value := parse_quoted_string value }
    else if key = "embed" then { result with embed := value == "true" }
    else if key = "has_one" then { result with has_one := parse_quoted_string value }
    else if key = "has_many" then { result with has_many := parse_quoted_string value }
    else if key = "belongs_to" then { result with belongs_to := parse_quoted_string value }
    else if key = "belongs_to_from" then { result with belongs_to_from := parse_quoted_string value }
    else if key = "belongs_to_to" then { result with belongs_to_to := parse_quoted_string value }
    else if key = "has_many_via" then { result with has_many_via := parse_quoted_string value }
    else result

/-- `parse_aggregate_into_field_options` (`options.rs`): splits the aggregate
text with `split_aggregate_parts` (the plain comma split) and applies each
`key: value` part. -/
def parse_aggregate_into_field_options (result : FieldOptions) (aggregate : String) :
    FieldOptions :=
  (split_aggregate_parts aggregate).foldl applyFieldKV result

/-! ## `src/lib.rs` and `src/main.rs` — errors and the process entry point -/

/-- `GeneratorError` (`lib.rs`). -/
inductive GeneratorError
  | OptionsParseError (s : String)
  | UnknownFieldType (s : String)
  | InvalidConfig (s : String)
  | CodeGenError (s : String)
  | DecodeError (s : String)
deriving DecidableEq

/-- The `Display` strings declared by the `#[error(...)]` attributes in
`lib.rs`. -/
def GeneratorError.toMessage : GeneratorError → String
  | GeneratorError.OptionsParseError s => "Failed to parse options: " ++ s
  | GeneratorError.UnknownFieldType s => "Unknown field type: " ++ s
  | GeneratorError.InvalidConfig s => "Invalid configuration: " ++ s
  | GeneratorError.CodeGenError s => "Code generation failed: " ++ s
  | GeneratorError.DecodeError s => "Decode error: " ++ s

/-- `prost_types::compiler::CodeGeneratorResponse`, restricted to the fields
the generator writes: the error string and the emitted `(name, content)`
files. -/
structure CodeGeneratorResponse where
  error : Option String
  file : List (String × String)
deriving DecidableEq

/-- Outcome of reading the request bytes from standard input. -/
inductive StdinResult
  | ok (bytes : List Nat)
  | ioErr (msg : String)
deriving DecidableEq

/-- The I/O environment `run` (`main.rs`) interacts with: the stdin read
outcome and whether response encoding and the stdout write succeed. -/
structure HostWorld where
  stdin : StdinResult
  encode_ok : Bool
  write_ok : Bool
deriving DecidableEq

/-- The `unwrap_or_else` in `main.rs`: a generator error of any kind —
including `DecodeError` — becomes a response whose `error` field carries the
error's display string. -/
def responseFor (gen : List Nat → Except GeneratorError CodeGeneratorResponse)
    (buf : List Nat) : CodeGeneratorResponse :=
  match gen buf with
  | Except.ok r => r
  | Except.error e => { error := some (GeneratorError.toMessage e), file := [] }

/-- `run` (`main.rs`): read stdin, generate (errors converted to an error
response), encode, write.  The returned value is the response written to
stdout; `Except.error` is the `Err` path of `run`. -/
def runPlugin (gen : List Nat → Except GeneratorError CodeGeneratorResponse)
    (w : HostWorld) : Except String CodeGeneratorResponse :=
  match w.stdin with
  | StdinResult.ioErr m => Except.error m
  | StdinResult.ok buf =>
    let response := responseFor gen buf
    if w.encode_ok then
      if w.write_ok then Except.ok response
      else Except.error "stdout write failed"
    else Except.error "encode failed"

/-- `main` (`main.rs`): exit code 1 exactly when `run` returns `Err`. -/
def mainExitCode (gen : List Nat → Except GeneratorError CodeGeneratorResponse)
    (w : HostWorld) : Nat :=
  match runPlugin gen w with
  | Except.ok _ => 0
  | Except.error _ => 1

/-! ## The option cache and the request pipeline

`OPTIONS_CACHE` and `preprocess_request_bytes` live in `options.rs`; the
orchestrator that consumes them (`generator.rs`) is not under `src/` and is
modelled from the spec's data flow (§2): raw bytes → extension decoder
populating the process-lifetime cache → typed request → per-message
generation consulting the cache → response. -/

/-- `seaorm::MessageOptions` (options schema). -/
structure MessageOptions where
  table_name : String
  skip : Bool
  indexes : List String
  relations : List RelationDef
deriving DecidableEq

/-- Keys of `OptionsCache` (`options.rs`): message options keyed by
`(file, message)`, field options by `(file, message, field number)`, oneof
options by `(file, message, oneof index)`.  (Enum and enum-value maps have
the same shape and are elided.) -/
inductive CacheKey
  | msgK (file msg : String)
  | fieldK (file msg : String) (n : Int)
  | oneofK (file msg : String) (i : Int)
deriving DecidableEq

/-- Values stored in the cache maps. -/
inductive CachedOpts
  | msgO (o : MessageOptions)
  | fieldO (o : FieldOptions)
  | oneofO (o : OneofOptions)
deriving DecidableEq

/-- The `OptionsCache` of `options.rs`: its `HashMap`s, represented as one
function from keys to optional values. -/
def OptionsCache := CacheKey → Option CachedOpts

def emptyCache : OptionsCache := fun _ => none

/-- `HashMap::insert`: overwrite the value at one key. -/
def cacheInsert (k : CacheKey) (v : CachedOpts) (c : OptionsCache) : OptionsCache :=
  fun q => if q = k then some v else c q

/-- A descriptor field as the preprocessing pass sees it: its number and the
typed `seaorm.field` extension if present (extension transport bypassed, as
in `OneofDescriptorProto`). -/
structure PField where
  fnumber : Int
  fopts : Option FieldOptions
deriving DecidableEq

structure POneofDecl where
  oopts : Option OneofOptions
deriving DecidableEq

/-- A message as the preprocessing pass sees it (nested messages recurse in
`extract_message_options` with a dotted name prefix; the recursion only adds
more entries of the same three shapes and is elided here). -/
structure PMsg where
  mname : String
  mopts : Option MessageOptions
  pfields : List PField
  poneofs : List POneofDecl
deriving DecidableEq

structure PFile where
  pfname : String
  messages : List PMsg
deriving DecidableEq

/-- `CodeGeneratorRequest`, restricted to what the pipeline reads. -/
structure PRequest where
  file_to_generate : List String
  proto_file : List PFile
deriving DecidableEq

/-- The cache writes performed by `extract_message_options` for one message:
the `seaorm.model` extension under `(file, name)`, each field's
`seaorm.field` extension under `(file, name, number)`, each oneof's
`seaorm.oneof` extension under `(file, name, index)`. -/
def entriesOfMsg (file : String) (m : PMsg) : List (CacheKey × CachedOpts) :=
  (match m.mopts with
   | some o => [(CacheKey.msgK file m.mname, CachedOpts.msgO o)]
   | none => [])
  ++ m.pfields.filterMap (fun f =>
       f.fopts.map (fun o => (CacheKey.fieldK file m.mname f.fnumber, CachedOpts.fieldO o)))
  ++ m.poneofs.enum.filterMap (fun p =>
       p.2.oopts.map (fun o => (CacheKey.oneofK file m.mname (Int.ofNat p.1), CachedOpts.oneofO o)))

/-- All cache writes of `preprocess_request_bytes`, in file and message
order (`extract_options_from_file` per file). -/
def entriesOfRequest (req : PRequest) : List (CacheKey × CachedOpts) :=
  (req.proto_file.map (fun f => (f.messages.map (entriesOfMsg f.pfname)).flatten)).flatten

/-- Insert a list of writes into the cache, in order (each `insert`
overwrites). -/
def applyEntries (es : List (CacheKey × CachedOpts)) (c : OptionsCache) : OptionsCache :=
  es.foldl (fun m e => cacheInsert e.1 e.2 m) c

/-- `preprocess_request_bytes` after decoding (`options.rs`): populate the
process-lifetime cache with every extension found in the request, leaving
unrelated entries in place. -/
def preprocess_request (req : PRequest) (c : OptionsCache) : OptionsCache :=
  applyEntries (entriesOfRequest req) c

/-- Modelled from the spec: prost-reflect decoding of the raw request bytes
(the dynamic-message machinery is external).  Any fixed deterministic
decoder suffices for the idempotence claim; this one fails on empty input
and otherwise derives a one-file request from the bytes. -/
def decodeRequest (bytes : List Nat) : Option PRequest :=
  match bytes with
  | [] => none
  | _ =>
    some { file_to_generate := ["input.proto"],
           proto_file := [{ pfname := "input.proto",
                            messages := bytes.map (fun b =>
                              { mname := "M" ++ toString b,
                                mopts := if b % 2 = 0 then
                                           some { table_name := "", skip := false,
                                                  indexes := [], relations := [] }
                                         else none,
                                pfields := [], poneofs := [] }) }] }

/-- Modelled from the spec: the orchestrator's per-request generation
(`generator.rs` is not under `src/`).  §4.6/§4.9: walk the files to
generate; a message with cached, non-skipped model options emits
`<snake(name)>.rs` with its resolved table name.  Generation only *reads*
the cache. -/
def generateRespModel (req : PRequest) (cache : OptionsCache) : CodeGeneratorResponse :=
  { error := none,
    file := ((req.proto_file.filter (fun f => req.file_to_generate.contains f.pfname)).map
      (fun f => f.messages.filterMap (fun m =>
        match cache (CacheKey.msgK f.pfname m.mname) with
        | some (CachedOpts.msgO o) =>
          if o.skip then none
          else some (toSnakeCase m.mname ++ ".rs",
                     "table_name = " ++ (if o.table_name = "" then toSnakeCase m.mname
                                         else o.table_name))
        | _ => none))).flatten }

/-- Modelled from the spec: `generate_from_bytes` (`lib.rs` →
`generator.rs`): decode the raw bytes (failure is the `Decode` error),
preprocess them into the process-lifetime cache, then generate.  The
returned cache is the process state left behind for a subsequent request in
the same process. -/
def generate_from_bytes_model (cache : OptionsCache) (bytes : List Nat) :
    Except GeneratorError CodeGeneratorResponse × OptionsCache :=
  match decodeRequest bytes with
  | none =>
    (Except.error (GeneratorError.DecodeError "failed to decode CodeGeneratorRequest"), cache)
  | some req =>
    let c2 := preprocess_request req cache
    (Except.ok (generateRespModel req c2), c2)

/-- A deterministic protobuf encoding of the response (modelled: the prost
encoder is external; any injective-on-the-fields function represents it). -/
def encodeString (s : String) : List Nat :=
  s.length :: s.data.map Char.toNat

def encodeResponse (r : CodeGeneratorResponse) : List Nat :=
  (match r.error with
   | some e => 1 :: encodeString e
   | none => [0])
  ++ (r.file.map (fun p => encodeString p.1 ++ encodeString p.2)).flatten

/-! ## Lemmas: heck snake case vs the spec's rule -/

theorem toLowerA_of_not_upper (c : Char) (h : isUpperA c = false) : toLowerA c = c := by
  simp [toLowerA, h]

theorem alnum_ne_underscore (c : Char) (h : isAlnumA c = true) : c ≠ '_' := by
  intro he
  subst he
  exact absurd h (by decide)

theorem transformGo_ne_nil (rest : List Char) :
    ∀ (c : Char) (mode : WordMode) (acc : List Char), transformGo c rest mode acc ≠ [] := by
  induction rest with
  | nil => intro c mode acc; simp [transformGo]
  | cons next rest ih =>
    intro c mode acc
    simp only [transformGo]
    split
    · simp
    · split
      · simp
      · exact ih next _ _

theorem joinWords_cons (w : List Char) (ws : List (List Char)) (h : ws ≠ []) :
    joinWords (w :: ws) = w ++ '_' :: joinWords ws := by
  cases ws with
  | nil => exact absurd rfl h
  | cons a t => rfl

theorem splitNonAlnum_all (s : List Char) (h : ∀ c ∈ s, isAlnumA c = true) :
    splitNonAlnum s = [s] := by
  induction s with
  | nil => rfl
  | cons c rest ih =>
    have hc : isAlnumA c = true := h c (List.mem_cons_self _ _)
    have hr := ih (fun x hx => h x (List.mem_cons_of_mem _ hx))
    simp [splitNonAlnum, hr, hc]

theorem transformGo_spec (rest : List Char) :
    ∀ (c : Char) (mode : WordMode) (acc : List Char),
    isAlnumA c = true → (∀ x ∈ rest, isAlnumA x = true) → adjOk (c :: rest) = true →
    (isUpperA c = true → acc = [] ∧ mode = WordMode.boundary) →
    joinWords ((transformGo c rest mode acc).map (List.map toLowerA))
      = acc.map toLowerA ++ toLowerA c :: specSnakeAux (some c) rest := by
  induction rest with
  | nil =>
    intro c mode acc _ _ _ _
    simp [transformGo, joinWords, specSnakeAux]
  | cons next rest ih =>
    intro c mode acc hc hr hadj hup
    have hnext : isAlnumA next = true := hr next (List.mem_cons_self _ _)
    have hrest : ∀ x ∈ rest, isAlnumA x = true := fun x hx => hr x (List.mem_cons_of_mem _ hx)
    have hsplit : ((!(isUpperA next) || isLowerA c) = true) ∧ adjOk (next :: rest) = true := by
      have h := hadj
      rw [adjOk, Bool.and_eq_true] at h
      exact h
    have hadj2 : adjOk (next :: rest) = true := hsplit.2
    cases hun : isUpperA next with
    | true =>
      have hlc : isLowerA c = true := by
        have h := hsplit.1
        rw [hun] at h
        simpa using h
      have hcond : nextModeOf c mode = WordMode.lower ∧ isUpperA next = true :=
        ⟨by simp [nextModeOf, hlc], hun⟩
      have hne : (transformGo next rest WordMode.boundary []).map (List.map toLowerA) ≠ [] := by
        intro hmap
        exact transformGo_ne_nil rest next WordMode.boundary [] (List.map_eq_nil_iff.mp hmap)
      have hcu : c ≠ '_' := alnum_ne_underscore c hc
      simp only [transformGo]
      rw [if_pos hcond, List.map_cons, joinWords_cons _ _ hne,
          ih next WordMode.boundary [] hnext hrest hadj2 (fun _ => ⟨rfl, rfl⟩)]
      simp [specSnakeAux, hun, hcu, List.map_append]
    | false =>
      have hnot1 : ¬(nextModeOf c mode = WordMode.lower ∧ isUpperA next = true) := by
        simp [hun]
      have hnot2 : ¬(mode = WordMode.upper ∧ isUpperA c = true ∧ isLowerA next = true) := by
        intro hh
        have hb := (hup hh.2.1).2
        rw [hb] at hh
        exact WordMode.noConfusion hh.1
      have hln : toLowerA next = next := toLowerA_of_not_upper next hun
      simp only [transformGo]
      rw [if_neg hnot1, if_neg hnot2,
          ih next (nextModeOf c mode) (acc ++ [c]) hnext hrest hadj2
            (fun hcontra => absurd hcontra (by simp [hun]))]
      simp [specSnakeAux, hun, hln, List.map_append]

theorem heck_eq_spec_list (s : List Char) (hal : ∀ c ∈ s, isAlnumA c = true)
    (hadj : adjOk s = true) : heckSnakeList s = specSnakeAux none s := by
  have hw : heckWords s = wordParts s := by
    rw [heckWords, splitNonAlnum_all s hal]
    simp
  cases s with
  | nil => rfl
  | cons c rest =>
    have hc : isAlnumA c = true := hal c (List.mem_cons_self _ _)
    have hrest : ∀ x ∈ rest, isAlnumA x = true := fun x hx => hal x (List.mem_cons_of_mem _ hx)
    rw [heckSnakeList, hw, wordParts,
        transformGo_spec rest c WordMode.boundary [] hc hrest hadj (fun _ => ⟨rfl, rfl⟩)]
    cases hcu : isUpperA c with
    | true => simp [specSnakeAux, hcu]
    | false => simp [specSnakeAux, hcu, toLowerA_of_not_upper c hcu]

/-! ## C5 — snake-case conversion vs the spec's definition -/

/-- C5 counterexample: on the acronym-run name `HTTPServer` the conversion
the generator actually performs (heck's `to_snake_case`) yields
`http_server`, while the spec's per-character rule yields `h_t_t_p_server`;
the claim that every conversion satisfies the spec's definition is false. -/
theorem snake_case_spec_counterexample :
    toSnakeCase "HTTPServer" = "http_server" ∧
    specSnakeCase "HTTPServer" = "h_t_t_p_server" ∧
    toSnakeCase "HTTPServer" ≠ specSnakeCase "HTTPServer" := by
  refine ⟨by decide, by decide, by decide⟩

/-- C5 (amended): on names made of ASCII alphanumerics in which every
non-initial upper-case letter immediately follows a lower-case letter
(ordinary camel-case names, no acronym runs), the snake-case conversion the
generator performs agrees exactly with the spec's per-character rule. -/
theorem snake_case_spec_agreement (s : String)
    (h1 : ∀ c ∈ s.data, isAlnumA c = true) (h2 : adjOk s.data = true) :
    toSnakeCase s = specSnakeCase s := by
  rw [toSnakeCase, specSnakeCase, heck_eq_spec_list s.data h1 h2]

/-- C5 witness: the agreement theorem applied at `CreditCardNumber`. -/
theorem snake_case_spec_agreement_witness :
    toSnakeCase "CreditCardNumber" = specSnakeCase "CreditCardNumber" :=
  snake_case_spec_agreement "CreditCardNumber" (by decide) (by decide)

/-! ## C10 — `OneofStrategy::from_str` -/

/-- C10: `OneofStrategy::from_str` is total and case-insensitive: it returns
`Json` iff the lower-cased input is `"json"`, `Tagged` iff it is
`"tagged"`, and `Flatten` for every other string, so a misspelled strategy
silently selects flatten. -/
theorem oneof_strategy_from_str_total (s : String) :
    (OneofStrategy.from_str s = OneofStrategy.json ↔ asciiLower s = "json") ∧
    (OneofStrategy.from_str s = OneofStrategy.tagged ↔ asciiLower s = "tagged") ∧
    (asciiLower s ≠ "json" → asciiLower s ≠ "tagged" →
      OneofStrategy.from_str s = OneofStrategy.flatten) := by
  by_cases hj : asciiLower s = "json"
  · have : ("json" : String) ≠ "tagged" := by decide
    simp [OneofStrategy.from_str, hj, this]
  · by_cases ht : asciiLower s = "tagged"
    · simp [OneofStrategy.from_str, hj, ht]
    · simp [OneofStrategy.from_str, hj, ht]

/-- C10 witness: the theorem applied at `"JSON"` (case-insensitivity) and at
the misspelling `"Flattn"` (silent flatten default). -/
theorem oneof_strategy_from_str_witness :
    OneofStrategy.from_str "JSON" = OneofStrategy.json ∧
    OneofStrategy.from_str "Flattn" = OneofStrategy.flatten := by
  constructor
  · exact (oneof_strategy_from_str_total "JSON").1.mpr (by decide)
  · exact (oneof_strategy_from_str_total "Flattn").2.2 (by decide) (by decide)

/-! ## C9 — tagged-strategy columns -/

/-- C9: a tagged-strategy oneof emits exactly two columns, both typed
`Option<String>` (nullable): a discriminator text column named by the
`discriminator_column` override or `<oneof>_type` when the override is
absent, and a value text column named `<oneof>_value`. -/
theorem tagged_strategy_columns (oneof : OneofInfo)
    (_h : oneof.strategy = OneofStrategy.tagged) :
    ∃ d v, generate_tagged_fields oneof = [d, v]
      ∧ d.attrs = ["column_name = " ++
          (if oneof.discriminator_column = "" then toSnakeCase oneof.name ++ "_type"
           else oneof.discriminator_column)]
      ∧ d.ty = RustTy.option "String"
      ∧ v.attrs = ["column_name = " ++ (toSnakeCase oneof.name ++ "_value"),
                   "column_type = Text"]
      ∧ v.ty = RustTy.option "String" := by
  simp only [generate_tagged_fields]
  exact ⟨_, _, rfl, rfl, rfl, rfl, rfl⟩

/-- C9 witness: the theorem applied at a concrete tagged oneof named
`payment_method` with no discriminator override. -/
theorem tagged_strategy_columns_witness :
    ∃ d v, generate_tagged_fields ⟨"payment_method", OneofStrategy.tagged, "", "", []⟩ = [d, v]
      ∧ d.attrs = ["column_name = payment_method_type"]
      ∧ v.attrs = ["column_name = payment_method_value", "column_type = Text"]
      ∧ d.ty = RustTy.option "String" ∧ v.ty = RustTy.option "String" := by
  obtain ⟨d, v, he, hd, hdt, hv, hvt⟩ :=
    tagged_strategy_columns ⟨"payment_method", OneofStrategy.tagged, "", "", []⟩ rfl
  exact ⟨d, v, he, by rw [hd]; decide, by rw [hv]; decide, hdt, hvt⟩

/-! ## C2 — flatten-strategy members are always nullable -/

theorem length_filterMap_of_all_some {α β : Type} (g : α → Option β) :
    ∀ l : List α, (∀ x ∈ l, (g x).isSome = true) → (l.filterMap g).length = l.length := by
  intro l
  induction l with
  | nil => intro _; rfl
  | cons a t ih =>
    intro h
    obtain ⟨b, hb⟩ := Option.isSome_iff_exists.mp (h a (List.mem_cons_self _ _))
    rw [List.filterMap_cons, hb]
    simp [ih (fun x hx => h x (List.mem_cons_of_mem _ hx))]

/-- C2: for a oneof extracted from a message and compiled under the flatten
strategy, every emitted row-struct member has an `Option<...>` type and its
column attribute carries the `nullable` flag — the user-supplied nullable
annotation is never consulted — and (when all fields are named, as the
compiler guarantees) exactly one member is emitted per oneof field. -/
theorem flatten_fields_nullable (message : DescriptorProto) (oneof : OneofInfo)
    (hmem : oneof ∈ extract_oneofs message)
    (_hstrat : oneof.strategy = OneofStrategy.flatten)
    (hnames : ∀ f ∈ message.field, f.name ≠ none) :
    (generate_flatten_fields oneof message).length = oneof.fields.length ∧
    ∀ m ∈ generate_flatten_fields oneof message,
      "nullable" ∈ m.attrs ∧ ∃ b, m.ty = RustTy.option b := by
  constructor
  · apply length_filterMap_of_all_some
    intro of hof
    obtain ⟨idx, d, hinfo⟩ : ∃ idx d, oneof = mkOneofInfo message idx d := by
      rw [extract_oneofs] at hmem
      obtain ⟨p, _, hsome⟩ := List.mem_filterMap.mp hmem
      by_cases hs : startsWithUnderscore (oneofDeclName p.2) = true
      · simp [hs] at hsome
      · simp [hs] at hsome
        exact ⟨p.1, p.2, hsome.symm⟩
    rw [hinfo] at hof
    simp only [mkOneofInfo] at hof
    obtain ⟨fld, hfld, hofeq⟩ := List.mem_map.mp hof
    have hfldmem : fld ∈ message.field := List.mem_of_mem_filter hfld
    obtain ⟨n, hn⟩ := Option.ne_none_iff_exists'.mp (hnames fld hfldmem)
    have hofname : of.name = n := by rw [← hofeq]; simp [hn]
    have hfind : (message.field.find? (fun f => f.name == some of.name)).isSome = true := by
      rw [List.find?_isSome]
      exact ⟨fld, hfldmem, by simp [hn, hofname]⟩
    obtain ⟨fld2, hfld2⟩ := Option.isSome_iff_exists.mp hfind
    simp only [hfld2]
    rfl
  · intro m hm
    rw [generate_flatten_fields] at hm
    obtain ⟨of, _, hemit⟩ := List.mem_filterMap.mp hm
    cases hfind : message.field.find? (fun f => f.name == some of.name) with
    | none => rw [hfind] at hemit; cases hemit
    | some fld =>
      rw [hfind] at hemit
      obtain rfl := Option.some.inj hemit
      exact ⟨by simp, ⟨_, rfl⟩⟩

/-- C2 witness: the theorem applied at a concrete two-variant flatten oneof
(`payment_method` on message `Payment`). -/
theorem flatten_fields_nullable_witness :
    (generate_flatten_fields
      ⟨"payment_method", OneofStrategy.flatten, "", "",
       [⟨"credit_card_number", 9, none⟩, ⟨"bank_account", 9, none⟩]⟩
      ⟨some "Payment",
       [⟨some "credit_card_number", 1, 9, none, some 0⟩,
        ⟨some "bank_account", 2, 9, none, some 0⟩],
       [⟨some "payment_method", some ⟨"flatten", "", ""⟩⟩]⟩).length = 2 ∧
    ∀ m ∈ generate_flatten_fields
      ⟨"payment_method", OneofStrategy.flatten, "", "",
       [⟨"credit_card_number", 9, none⟩, ⟨"bank_account", 9, none⟩]⟩
      ⟨some "Payment",
       [⟨some "credit_card_number", 1, 9, none, some 0⟩,
        ⟨some "bank_account", 2, 9, none, some 0⟩],
       [⟨some "payment_method", some ⟨"flatten", "", ""⟩⟩]⟩,
      "nullable" ∈ m.attrs := by
  have h := flatten_fields_nullable
    ⟨some "Payment",
     [⟨some "credit_card_number", 1, 9, none, some 0⟩,
      ⟨some "bank_account", 2, 9, none, some 0⟩],
     [⟨some "payment_method", some ⟨"flatten", "", ""⟩⟩]⟩
    ⟨"payment_method", OneofStrategy.flatten, "", "",
     [⟨"credit_card_number", 9, none⟩, ⟨"bank_account", 9, none⟩]⟩
    (by decide) rfl (by decide)
  exact ⟨h.1, fun m hm => (h.2 m hm).1⟩

/-! ## C3 — synthetic (underscore-prefixed) oneofs -/

theorem extract_oneofs_no_underscore (message : DescriptorProto) :
    ∀ info ∈ extract_oneofs message, startsWithUnderscore info.name = false := by
  intro info hinfo
  rw [extract_oneofs] at hinfo
  obtain ⟨p, _, hsome⟩ := List.mem_filterMap.mp hinfo
  by_cases hs : startsWithUnderscore (oneofDeclName p.2) = true
  · simp [hs] at hsome
  · simp [hs] at hsome
    rw [← hsome]
    simp only [mkOneofInfo]
    cases hb : startsWithUnderscore (oneofDeclName p.2) with
    | false => rfl
    | true => exact absurd hb hs

/-- C3: a oneof whose declared name begins with an underscore (a synthetic
proto3 presence oneof) produces no entry in `extract_oneofs`,
`is_oneof_field` returns `false` for its member field, and the field renders
as a plain nullable scalar column with no oneof strategy attribute. -/
theorem synthetic_oneof_skipped (message : DescriptorProto) (idx : Nat)
    (f : FieldDescriptorProto)
    (hidx : idx < message.oneof_decl.length)
    (hu : startsWithUnderscore (oneofDeclName (message.oneof_decl.get ⟨idx, hidx⟩)) = true)
    (hf : f.oneof_index = some (Int.ofNat idx)) :
    (∀ info ∈ extract_oneofs message,
        info.name ≠ oneofDeclName (message.oneof_decl.get ⟨idx, hidx⟩)) ∧
    is_oneof_field f message = false ∧
    (∃ fld, renderPlainScalar message f = some fld ∧ fld.attrs = [] ∧
      ∃ b, fld.ty = RustTy.option b) := by
  have hget : message.oneof_decl.get? idx = some (message.oneof_decl.get ⟨idx, hidx⟩) :=
    List.get?_eq_get hidx
  have hnonneg : (0 : Int) ≤ Int.ofNat idx := Int.ofNat_nonneg idx
  have htonat : (Int.ofNat idx).toNat = idx := rfl
  have hfield : is_oneof_field f message = false := by
    rw [is_oneof_field, hf]
    simp only [if_pos hnonneg, htonat, hget]
    cases hname : (message.oneof_decl.get ⟨idx, hidx⟩).name with
    | none => rfl
    | some n =>
      have : startsWithUnderscore n = true := by
        rw [oneofDeclName, hname] at hu
        exact hu
      simp [this]
  refine ⟨?_, hfield, ?_⟩
  · intro info hinfo heq
    have h := extract_oneofs_no_underscore message info hinfo
    rw [heq, hu] at h
    cases h
  · have hsyn : isSyntheticOneofMember f message = true := by
      rw [isSyntheticOneofMember, hf]
      simp only [if_pos hnonneg, htonat, hget]
      exact hu
    have hrender : renderPlainScalar message f
        = some ⟨[], toSnakeCase (f.name.getD ""),
                RustTy.option (map_proto_type f.protoType f.type_name)⟩ := by
      rw [renderPlainScalar]
      simp [hfield, hsyn]
    exact ⟨_, hrender, rfl, _, rfl⟩

/-- C3 witness: the theorem applied at a message whose only oneof is the
synthetic `_email` presence oneof. -/
theorem synthetic_oneof_skipped_witness :
    is_oneof_field ⟨some "email", 1, 9, none, some 0⟩
      ⟨some "User", [⟨some "email", 1, 9, none, some 0⟩], [⟨some "_email", none⟩]⟩ = false ∧
    renderPlainScalar
      ⟨some "User", [⟨some "email", 1, 9, none, some 0⟩], [⟨some "_email", none⟩]⟩
      ⟨some "email", 1, 9, none, some 0⟩
      = some ⟨[], "email", RustTy.option "String"⟩ := by
  have h := synthetic_oneof_skipped
    ⟨some "User", [⟨some "email", 1, 9, none, some 0⟩], [⟨some "_email", none⟩]⟩ 0
    ⟨some "email", 1, 9, none, some 0⟩ (by decide) (by decide) rfl
  exact ⟨h.2.1, by decide⟩

/-! ## C4 — aggregate splitting in the uninterpreted-option fallback -/

/-- C4: contrary to the claim (and to `split_aggregate_parts`'s own doc
comment "respecting nested braces"), the splitter used for field, enum,
enum-value and oneof aggregates is a plain comma split: on the aggregate
`has_one: {a,b}` it separates at the comma inside the braces, and the parsed
field options record the truncated value; the depth-tracking splitter used
for message aggregates keeps the braced text intact. -/
theorem aggregate_split_inside_braces :
    split_aggregate_parts "has_one: \x7ba,b\x7d" = ["has_one: \x7ba", "b\x7d"] ∧
    split_aggregate_parts_simple "has_one: \x7ba,b\x7d" = ["has_one: \x7ba,b\x7d"] ∧
    (parse_aggregate_into_field_options defaultFieldOptions "has_one: \x7ba,b\x7d").has_one
      = "\x7ba" := by
  refine ⟨by decide, by decide, by decide⟩

/-! ## C6 — decode errors and the exit path -/

/-- C6 counterexample: a `Decode` failure does *not* reach the exit path.
With stdin delivering undecodable request bytes and all I/O succeeding,
`run` writes a response whose error field carries the decode error string
and the process exits 0 — refuting the claim that catastrophic decode
failures terminate the process with a nonzero exit code. -/
theorem decode_error_exit_counterexample :
    mainExitCode (fun b => (generate_from_bytes_model emptyCache b).1)
      ⟨StdinResult.ok [], true, true⟩ = 0 ∧
    runPlugin (fun b => (generate_from_bytes_model emptyCache b).1)
      ⟨StdinResult.ok [], true, true⟩
      = Except.ok { error := some "Decode error: failed to decode CodeGeneratorRequest",
                    file := [] } :=
  ⟨rfl, rfl⟩

/-- C6 (amended): `run` in `main.rs` converts *every* generator error —
`Decode` errors included — into a response carrying the error's display
string, and a response is always formed from the request; the process exits
zero iff reading stdin, encoding the response and writing stdout all
succeed, independently of any generator failure. -/
theorem exit_code_policy (gen : List Nat → Except GeneratorError CodeGeneratorResponse)
    (w : HostWorld) :
    (mainExitCode gen w = 0 ↔
      (∃ b, w.stdin = StdinResult.ok b) ∧ w.encode_ok = true ∧ w.write_ok = true) ∧
    (∀ buf e, w.stdin = StdinResult.ok buf → gen buf = Except.error e →
      w.encode_ok = true → w.write_ok = true →
      runPlugin gen w
        = Except.ok { error := some (GeneratorError.toMessage e), file := [] }) := by
  obtain ⟨stdin, eok, wok⟩ := w
  constructor
  · cases stdin with
    | ioErr m => simp [mainExitCode, runPlugin]
    | ok buf =>
      cases eok <;> cases wok <;> simp [mainExitCode, runPlugin]
  · intro buf e hin hgen hek hwk
    cases stdin with
    | ioErr m => cases hin
    | ok buf2 =>
      obtain rfl : buf2 = buf := by cases hin; rfl
      subst hek hwk
      simp [runPlugin, responseFor, hgen]

/-- C6 witness: the amended theorem applied at a generator that fails with a
`Decode` error on concrete bytes `[1]` in a fully functional I/O world. -/
theorem exit_code_policy_witness :
    mainExitCode (fun _ => Except.error (GeneratorError.DecodeError "bad"))
      ⟨StdinResult.ok [1], true, true⟩ = 0 ∧
    runPlugin (fun _ => Except.error (GeneratorError.DecodeError "bad"))
      ⟨StdinResult.ok [1], true, true⟩
      = Except.ok { error := some "Decode error: bad", file := [] } := by
  have h := exit_code_policy (fun _ => Except.error (GeneratorError.DecodeError "bad"))
    ⟨StdinResult.ok [1], true, true⟩
  exact ⟨h.1.mpr ⟨⟨[1], rfl⟩, rfl, rfl⟩,
         h.2 [1] (GeneratorError.DecodeError "bad") rfl rfl rfl rfl⟩

/-! ## C7 — idempotence across the process-lifetime option cache -/

theorem applyEntries_compare (es : List (CacheKey × CachedOpts)) :
    ∀ (c₁ c₂ : OptionsCache) (k : CacheKey),
      applyEntries es c₁ k = applyEntries es c₂ k ∨
      (applyEntries es c₁ k = c₁ k ∧ applyEntries es c₂ k = c₂ k) := by
  induction es with
  | nil => intro c₁ c₂ k; right; exact ⟨rfl, rfl⟩
  | cons e t ih =>
    intro c₁ c₂ k
    rcases ih (cacheInsert e.1 e.2 c₁) (cacheInsert e.1 e.2 c₂) k with h | ⟨h1, h2⟩
    · left; exact h
    · by_cases hk : k = e.1
      · left
        show applyEntries t (cacheInsert e.1 e.2 c₁) k = applyEntries t (cacheInsert e.1 e.2 c₂) k
        rw [h1, h2]
        simp [cacheInsert, hk]
      · right
        refine ⟨?_, ?_⟩
        · show applyEntries t (cacheInsert e.1 e.2 c₁) k = c₁ k
          rw [h1]; simp [cacheInsert, hk]
        · show applyEntries t (cacheInsert e.1 e.2 c₂) k = c₂ k
          rw [h2]; simp [cacheInsert, hk]

/-- Re-inserting the same write list leaves the cache unchanged: the basis
of idempotence for the process-lifetime `OPTIONS_CACHE`. -/
theorem applyEntries_idem (es : List (CacheKey × CachedOpts)) (c : OptionsCache) :
    applyEntries es (applyEntries es c) = applyEntries es c := by
  funext k
  rcases applyEntries_compare es (applyEntries es c) c k with h | ⟨h1, _⟩
  · exact h
  · exact h1

/-- C7: running the generator twice on identical request bytes within one
process — the second run starting from the cache the first run left behind —
produces the same result, and hence a byte-identical encoded response; the
retained cache entries do not alter the second run's output. -/
theorem request_idempotent (bytes : List Nat) :
    (generate_from_bytes_model ((generate_from_bytes_model emptyCache bytes).2) bytes).1
      = (generate_from_bytes_model emptyCache bytes).1 ∧
    encodeResponse (responseFor
        (fun b => (generate_from_bytes_model ((generate_from_bytes_model emptyCache b).2) b).1)
        bytes)
      = encodeResponse (responseFor
        (fun b => (generate_from_bytes_model emptyCache b).1) bytes) := by
  have hmain : (generate_from_bytes_model ((generate_from_bytes_model emptyCache bytes).2) bytes).1
      = (generate_from_bytes_model emptyCache bytes).1 := by
    cases hdec : decodeRequest bytes with
    | none => simp [generate_from_bytes_model, hdec]
    | some req =>
      simp only [generate_from_bytes_model, hdec, preprocess_request]
      rw [applyEntries_idem]
  exact ⟨hmain, by rw [responseFor, responseFor, hmain]⟩

/-! ## C8 — many-to-many without a junction entity degrades to has-many -/

/-- C8: a many-to-many relation record with an empty `through` (no junction
entity) degrades to has-many: the emitted relation field is typed `HasMany`
and carries a `has_many` attribute with no `via` clause (its attribute list
is exactly the plain or self-referential has-many form), and the
attribute-string renderer likewise produces `has_many = "..."` rather than a
`many_to_many` declaration. -/
theorem many_to_many_without_through (rel : RelationDef) (cur : String) (rev : Option String)
    (hty : relationTypeOfInt rel.type = RelationType.manyToMany)
    (hth : rel.through = "")
    (hn : rel.name ≠ "") (hr : rel.related ≠ "") :
    (∃ f, generate_relation_field_with_reverse rel cur rev = some f
       ∧ f.wrapper = "HasMany" ∧ "has_many" ∈ f.attrs
       ∧ (f.attrs = ["has_many"] ∨
          f.attrs = ["has_many", "self_ref",
                     "relation_enum = " ++ toUpperCamelCase rel.name])) ∧
    (∃ g, generate_relation_from_def rel = some g ∧ g.via_table = none
       ∧ generate_relation_attribute g = "has_many = \"" ++ g.target_entity ++ "\"") := by
  have hguard : ¬(rel.name = "" ∨ rel.related = "") := by
    rintro (h | h)
    · exact hn h
    · exact hr h
  constructor
  · by_cases hs : toSnakeCase rel.related = toSnakeCase cur
    · have hv : generate_relation_field_with_reverse rel cur rev
          = some ⟨["has_many", "self_ref", "relation_enum = " ++ toUpperCamelCase rel.name],
                  toSnakeCase rel.name, "HasMany", "Entity"⟩ := by
        rw [generate_relation_field_with_reverse, if_neg hguard]
        simp [hty, hth, hs]
      exact ⟨_, hv, rfl, by simp, Or.inr rfl⟩
    · have hv : generate_relation_field_with_reverse rel cur rev
          = some ⟨["has_many"], toSnakeCase rel.name, "HasMany",
                  "super::" ++ toSnakeCase rel.related ++ "::Entity"⟩ := by
        rw [generate_relation_field_with_reverse, if_neg hguard]
        simp [hty, hth, hs]
      exact ⟨_, hv, rfl, by simp, Or.inl rfl⟩
  · have hg : generate_relation_from_def rel
        = some { variant_name := toUpperCamelCase rel.name,
                 relation_type := SeaOrmRelationType.manyToMany,
                 target_entity := "super::" ++ toSnakeCase rel.related ++ "::Entity",
                 from_column := if rel.foreign_key ≠ "" then some rel.foreign_key else none,
                 to_column := if rel.references ≠ "" then some rel.references else none,
                 via_table := none } := by
      rw [generate_relation_from_def, if_neg hguard]
      simp [hty, hth]
    exact ⟨_, hg, rfl, rfl⟩

/-- C8 witness: the theorem applied at a concrete junction-less many-to-many
record `tags → tag` on entity `post`. -/
theorem many_to_many_without_through_witness :
    ∃ f, generate_relation_field_with_reverse ⟨"tags", 4, "tag", "", "", ""⟩ "post" none
        = some f
      ∧ f.wrapper = "HasMany" ∧ "has_many" ∈ f.attrs := by
  obtain ⟨⟨f, hf, hw, hm, _⟩, _⟩ :=
    many_to_many_without_through ⟨"tags", 4, "tag", "", "", ""⟩ "post" none
      (by decide) rfl (by decide) (by decide)
  exact ⟨f, hf, hw, hm⟩

/-! ## C1 — self-referential complementary pairs name each other -/

theorem isComplementary_symm (a b : RelationType) :
    isComplementary a b = isComplementary b a := by
  cases a <;> cases b <;> rfl

theorem isComplementary_left (a b : RelationType) :
    isComplementary a b = true →
    a = RelationType.belongsTo ∨ a = RelationType.hasOne ∨ a = RelationType.hasMany := by
  cases a <;> cases b <;> decide

theorem sameFk_of_agree (r1 r2 : RelationDef)
    (hfk : r1.foreign_key ≠ "" → r2.foreign_key ≠ "" → r1.foreign_key = r2.foreign_key) :
    sameFk r1 r2 = true := by
  rw [sameFk]
  by_cases h1 : r1.foreign_key ≠ "" ∧ r2.foreign_key ≠ ""
  · rw [if_pos h1]
    exact beq_iff_eq.mpr (hfk h1.1 h1.2)
  · rw [if_neg h1]

theorem findLoop_finds (r1 r2 : RelationDef) (cur : String)
    (hname : r1.name ≠ r2.name)
    (hs2 : toSnakeCase r2.related = toSnakeCase cur)
    (hc : isComplementary (relationTypeOfInt r1.type) (relationTypeOfInt r2.type) = true)
    (hfk : sameFk r1 r2 = true) :
    ∀ l : List RelationDef, r2 ∈ l →
      (∀ r ∈ l, toSnakeCase r.related = toSnakeCase cur → r = r1 ∨ r = r2) →
      findLoop l r1 cur = some (toUpperCamelCase r2.name) := by
  intro l
  induction l with
  | nil => intro h _; cases h
  | cons a t ih =>
    intro hmem honly
    by_cases ha : a = r2
    · subst ha
      rw [findLoop, if_neg (fun hh => hname hh.symm), if_pos hs2, if_pos hc, if_pos hfk]
    · have hmem' : r2 ∈ t := by
        rcases List.mem_cons.mp hmem with h | h
        · exact absurd h.symm ha
        · exact h
      have honly' : ∀ r ∈ t, toSnakeCase r.related = toSnakeCase cur → r = r1 ∨ r = r2 :=
        fun r hr => honly r (List.mem_cons_of_mem _ hr)
      rw [findLoop]
      by_cases han : a.name = r1.name
      · rw [if_pos han]
        exact ih hmem' honly'
      · rw [if_neg han]
        by_cases hsa : toSnakeCase a.related = toSnakeCase cur
        · rcases honly a (List.mem_cons_self _ _) hsa with h | h
          · exact absurd (congrArg RelationDef.name h) han
          · exact absurd h ha
        · rw [if_neg hsa]
          exact ih hmem' honly'

/-- A self-referential relation of kind belongs-to, has-one or has-many,
emitted with a reverse partner, carries the `relation_reverse` attribute. -/
theorem emit_self_ref_reverse (rel : RelationDef) (cur : String) (rev : String)
    (hn : rel.name ≠ "") (hr : rel.related ≠ "")
    (hs : toSnakeCase rel.related = toSnakeCase cur)
    (hty : relationTypeOfInt rel.type = RelationType.belongsTo ∨
           relationTypeOfInt rel.type = RelationType.hasOne ∨
           relationTypeOfInt rel.type = RelationType.hasMany) :
    ∃ f, generate_relation_field_with_reverse rel cur (some rev) = some f ∧
      ("relation_reverse = " ++ rev) ∈ f.attrs := by
  have hguard : ¬(rel.name = "" ∨ rel.related = "") := by
    rintro (h | h)
    · exact hn h
    · exact hr h
  rcases hty with h | h | h
  · have hv : generate_relation_field_with_reverse rel cur (some rev)
        = some ⟨["self_ref", "relation_enum = " ++ toUpperCamelCase rel.name,
                 "relation_reverse = " ++ rev,
                 "from = " ++ (if rel.foreign_key = "" then toSnakeCase rel.related ++ "_id"
                               else rel.foreign_key),
                 "to = " ++ (if rel.references = "" then "id" else rel.references)],
                toSnakeCase rel.name, "HasOne", "Entity"⟩ := by
      rw [generate_relation_field_with_reverse, if_neg hguard]
      simp [h, hs]
    exact ⟨_, hv, by simp⟩
  · have hv : generate_relation_field_with_reverse rel cur (some rev)
        = some ⟨["has_one", "self_ref", "relation_enum = " ++ toUpperCamelCase rel.name,
                 "relation_reverse = " ++ rev],
                toSnakeCase rel.name, "HasOne", "Entity"⟩ := by
      rw [generate_relation_field_with_reverse, if_neg hguard]
      simp [h, hs]
    exact ⟨_, hv, by simp⟩
  · by_cases hth : rel.through = ""
    · have hv : generate_relation_field_with_reverse rel cur (some rev)
          = some ⟨["has_many", "self_ref", "relation_enum = " ++ toUpperCamelCase rel.name,
                   "relation_reverse = " ++ rev],
                  toSnakeCase rel.name, "HasMany", "Entity"⟩ := by
        rw [generate_relation_field_with_reverse, if_neg hguard]
        simp [h, hs, hth]
      exact ⟨_, hv, by simp⟩
    · have hv : generate_relation_field_with_reverse rel cur (some rev)
          = some ⟨["has_many", "self_ref", "relation_enum = " ++ toUpperCamelCase rel.name,
                   "relation_reverse = " ++ rev, "via = " ++ toSnakeCase rel.through],
                  toSnakeCase rel.name, "HasMany", "Entity"⟩ := by
        rw [generate_relation_field_with_reverse, if_neg hguard]
        simp [h, hs, hth]
      exact ⟨_, hv, by simp⟩

/-- C1: when a message's relation list contains exactly two (name-distinct)
self-referential relations, of complementary kinds (belongs-to with has-one
or has-many), whose foreign keys agree whenever both are specified, the
fields emitted by `generate_relation_fields` carry, on each of the two
relations, a `relation_reverse` attribute naming the other relation in upper
camel case. -/
theorem self_ref_pair_reverse (relations : List RelationDef) (cur : String)
    (r1 r2 : RelationDef)
    (h1 : r1 ∈ relations) (h2 : r2 ∈ relations)
    (hname : r1.name ≠ r2.name)
    (hn1 : r1.name ≠ "") (hn2 : r2.name ≠ "")
    (hr1 : r1.related ≠ "") (hr2 : r2.related ≠ "")
    (hs1 : toSnakeCase r1.related = toSnakeCase cur)
    (hs2 : toSnakeCase r2.related = toSnakeCase cur)
    (hc : isComplementary (relationTypeOfInt r1.type) (relationTypeOfInt r2.type) = true)
    (hfk : r1.foreign_key ≠ "" → r2.foreign_key ≠ "" → r1.foreign_key = r2.foreign_key)
    (honly : ∀ r ∈ relations, toSnakeCase r.related = toSnakeCase cur → r = r1 ∨ r = r2) :
    (∃ f1, generate_relation_field_with_reverse r1 cur
        (find_self_ref_reverse relations r1 cur) = some f1
      ∧ f1 ∈ generate_relation_fields relations cur
      ∧ ("relation_reverse = " ++ toUpperCamelCase r2.name) ∈ f1.attrs) ∧
    (∃ f2, generate_relation_field_with_reverse r2 cur
        (find_self_ref_reverse relations r2 cur) = some f2
      ∧ f2 ∈ generate_relation_fields relations cur
      ∧ ("relation_reverse = " ++ toUpperCamelCase r1.name) ∈ f2.attrs) := by
  have hfind1 : find_self_ref_reverse relations r1 cur = some (toUpperCamelCase r2.name) := by
    rw [find_self_ref_reverse, if_pos hs1]
    exact findLoop_finds r1 r2 cur hname hs2 hc (sameFk_of_agree r1 r2 hfk) relations h2 honly
  have hfind2 : find_self_ref_reverse relations r2 cur = some (toUpperCamelCase r1.name) := by
    rw [find_self_ref_reverse, if_pos hs2]
    refine findLoop_finds r2 r1 cur (Ne.symm hname) hs1 ?_ ?_ relations h1 ?_
    · rw [isComplementary_symm]
      exact hc
    · exact sameFk_of_agree r2 r1 (fun hb ha => (hfk ha hb).symm)
    · intro r hr hsr
      rcases honly r hr hsr with h | h
      · exact Or.inr h
      · exact Or.inl h
  obtain ⟨f1, hf1, hm1⟩ := emit_self_ref_reverse r1 cur (toUpperCamelCase r2.name) hn1 hr1 hs1
    (isComplementary_left _ _ hc)
  obtain ⟨f2, hf2, hm2⟩ := emit_self_ref_reverse r2 cur (toUpperCamelCase r1.name) hn2 hr2 hs2
    (isComplementary_left _ _ (by rw [isComplementary_symm]; exact hc))
  refine ⟨⟨f1, ?_, ?_, hm1⟩, ⟨f2, ?_, ?_, hm2⟩⟩
  · rw [hfind1]
    exact hf1
  · rw [generate_relation_fields]
    exact List.mem_filterMap.mpr ⟨r1, h1, by rw [hfind1]; exact hf1⟩
  · rw [hfind2]
    exact hf2
  · rw [generate_relation_fields]
    exact List.mem_filterMap.mpr ⟨r2, h2, by rw [hfind2]; exact hf2⟩

/-- C1 witness: the theorem applied at the concrete pair
`parent` (belongs-to, fk `parent_id`) / `children` (has-many) on entity
`TreeNode` (targets written in the two spellings that snake-case to the
same module). -/
theorem self_ref_pair_reverse_witness :
    ∃ f1, generate_relation_field_with_reverse ⟨"parent", 1, "tree_node", "parent_id", "", ""⟩
        "TreeNode"
        (find_self_ref_reverse
          [⟨"parent", 1, "tree_node", "parent_id", "", ""⟩,
           ⟨"children", 3, "TreeNode", "", "", ""⟩]
          ⟨"parent", 1, "tree_node", "parent_id", "", ""⟩ "TreeNode") = some f1
      ∧ ("relation_reverse = Children") ∈ f1.attrs := by
  obtain ⟨⟨f1, hf1, _, hm1⟩, _⟩ := self_ref_pair_reverse
    [⟨"parent", 1, "tree_node", "parent_id", "", ""⟩,
     ⟨"children", 3, "TreeNode", "", "", ""⟩]
    "TreeNode"
    ⟨"parent", 1, "tree_node", "parent_id", "", ""⟩
    ⟨"children", 3, "TreeNode", "", "", ""⟩
    (by decide) (by decide) (by decide) (by decide) (by decide) (by decide) (by decide)
    (by decide) (by decide) (by decide) (by decide) (by decide)
  refine ⟨f1, hf1, ?_⟩
  have hm1' : ("relation_reverse = " ++ toUpperCamelCase "children") ∈ f1.attrs := hm1
  have heq : "relation_reverse = " ++ toUpperCamelCase "children" = "relation_reverse = Children" := by
    decide
  rw [heq] at hm1'
  exact hm1'
